import Mathlib

/-!
Shallow embedding of the freddo377 FROST draft (src/frost.rs, src/schnorr.rs,
src/signing_key.rs, src/lib.rs, src/participant.rs).

The decaf377 group is a prime-order cyclic group of order
`decafOrder`, generated by `decaf377::basepoint()`; the scalar field
`decaf377::Fr` is `ZMod decafOrder`.  Since the group is cyclic of that
order with the basepoint as generator, a group element is represented
here by its discrete logarithm with respect to the basepoint: the group
is `ZMod decafOrder` written additively, the basepoint is `1`, and
scalar multiplication `k * P` is field multiplication of the scalar by
the representative.  This representation is an isomorphism of the
abstract group interface the source consumes (fixed generator, scalar
multiplication, addition, zero, canonical injective encoding), so every
equational statement about the source transfers verbatim.

The merlin Fiat–Shamir transcript is modelled as a pure value recording
the domain label and the ordered list of appended `(label, message)`
byte strings; the STROBE squeeze that produces challenge bytes is an
arbitrary function parameter `H`, so all theorems hold for every
instantiation of the underlying hash.
-/

namespace Freddo

/-- Order of the decaf377 prime-order group, which is also the modulus of its
scalar field `decaf377::Fr` (the value `0x04aad957...d9ff`). -/
def decafOrder : ℕ :=
  2111115437357092606062206234695386632838870926408408195193685246394721360383

instance : NeZero decafOrder := ⟨by norm_num [decafOrder]⟩

/-- `decaf377::Fr`, the scalar field of the decaf377 group. -/
abbrev Fr := ZMod decafOrder

/-- `decaf377::Element`: the prime-order group, written additively and
represented by discrete logarithms with respect to the basepoint. -/
abbrev Element := ZMod decafOrder

/-- `decaf377::basepoint()`, the fixed generator. -/
def basepoint : Element := 1

/-- Scalar multiplication `k * P` of a group element by a field scalar. -/
def scalarMul (k : Fr) (e : Element) : Element := k * e

/-- Little-endian byte serialization of a natural number into `n` bytes. -/
def leBytes : ℕ → ℕ → List ℕ
  | 0, _ => []
  | n + 1, x => x % 256 :: leBytes n (x / 256)

/-- Reassemble a little-endian byte list into a natural number. -/
def fromLeBytesNat : List ℕ → ℕ
  | [] => 0
  | b :: bs => b + 256 * fromLeBytesNat bs

/-- `Element::vartime_compress`: the canonical (bijective, hence injective)
32-byte encoding of a group element, modelled as the little-endian bytes of
the discrete-log representative. -/
def vartimeCompress (e : Element) : List ℕ := leBytes 32 e.val

/-- `Fr::from_le_bytes_mod_order`: interpret little-endian bytes as a natural
number and reduce it modulo the field order. -/
def fromLeBytesModOrder (bs : List ℕ) : Fr := (fromLeBytesNat bs : Fr)

/-- `merlin::Transcript`, modelled as the protocol (domain) label together
with the ordered list of appended `(label, message)` pairs. -/
structure Transcript where
  domain : List ℕ
  messages : List (List ℕ × List ℕ)

/-- `merlin::Transcript::new(label)`. -/
def Transcript.new (domain : List ℕ) : Transcript := ⟨domain, []⟩

/-- `Transcript::append_message(label, msg)`. -/
def Transcript.append_message (t : Transcript) (label msg : List ℕ) : Transcript :=
  ⟨t.domain, t.messages ++ [(label, msg)]⟩

/-- `Transcript::append_u64(label, x)`: merlin encodes the integer as 8
little-endian bytes and appends it as a message. -/
def Transcript.append_u64 (t : Transcript) (label : List ℕ) (x : ℕ) : Transcript :=
  t.append_message label (leBytes 8 x)

/-- `Transcript::challenge_bytes(label, dest)`: squeezes 32 challenge bytes,
a deterministic function of the transcript state and the challenge label.
The STROBE PRF is the parameter `H`; the extraction is also recorded in the
returned transcript state, as merlin mutates its state when squeezing. -/
def Transcript.challenge_bytes (H : Transcript → List ℕ → List ℕ)
    (t : Transcript) (label : List ℕ) : List ℕ × Transcript :=
  (H t label, t.append_message label (H t label))

/-- Byte string of an ASCII label. -/
def strBytes (s : String) : List ℕ := s.toList.map Char.toNat

/-- The transcript domain label `b"freddo377-key-gen"`. -/
def keygenDomainLabel : List ℕ := strBytes "freddo377-key-gen"

/-- The transcript field label `b"signer-identifier"`. -/
def signerIdentifierLabel : List ℕ := strBytes "signer-identifier"

/-- The transcript field label `b"constant-term-commitment"`. -/
def constantTermLabel : List ℕ := strBytes "constant-term-commitment"

/-- The transcript field label `b"nonce-commitment"`. -/
def nonceCommitmentLabel : List ℕ := strBytes "nonce-commitment"

/-- The challenge label `b"schnorr-sig-challenge"`. -/
def schnorrChallengeLabel : List ℕ := strBytes "schnorr-sig-challenge"

/-- `schnorr::Signature` (src/schnorr.rs): a nonce commitment and a
challenge response. -/
structure Signature where
  commitment : Element
  challenge_response : Fr

/-- `schnorr::Signature::default()`: identity element and zero scalar. -/
def Signature.default : Signature := ⟨0, 0⟩

/-- `signing_key::VerificationKey` (src/signing_key.rs). -/
structure VerificationKey where
  coefficients : List Element

/-- `signing_key::SigningKey` (src/signing_key.rs). -/
structure SigningKey where
  coefficients : List Fr

/-- `SigningKey::to_public_signing_key`: commit to every coefficient by
scalar multiplication with the generator. -/
def SigningKey.to_public_signing_key (sk : SigningKey) : VerificationKey :=
  ⟨sk.coefficients.map (fun k => scalarMul k basepoint)⟩

/-- `SigningKey::evaluate`: Horner evaluation of the coefficient polynomial,
folding over the coefficients in reverse order. -/
def SigningKey.evaluate (sk : SigningKey) (point : Fr) : Fr :=
  sk.coefficients.reverse.foldl (fun result c => result * point + c) 0

/-- `frost::FrostSigner` (src/frost.rs): a participant with an identifier,
the polynomial coefficients (its signing key), a blinding nonce, and the
public commitment to the coefficients. -/
structure FrostSigner where
  id : ℕ
  signing_key : List Fr
  nonce : Fr
  commitment : List Element

/-- `FrostSigner::new(id, committee_size, threshold, rng)`: draws `threshold`
random coefficients and then one random nonce from the RNG, and commits to
every coefficient by scalar multiplication with the generator.  The RNG is
modelled as the stream `sample`, drawn at successive indices; the committee
size argument is unused by the source. -/
def FrostSigner.new (id : ℕ) (_committee_size threshold : ℕ) (sample : ℕ → Fr) :
    FrostSigner :=
  let signing_key : List Fr := (List.range threshold).map sample
  let commitment : List Element := signing_key.map (fun k => scalarMul k basepoint)
  let nonce : Fr := sample threshold
  ⟨id, signing_key, nonce, commitment⟩

/-- `FrostSigner::signing_key_evaluate(point)`: Horner evaluation of the
signing-key polynomial, folding over the coefficients in reverse order. -/
def FrostSigner.signing_key_evaluate (s : FrostSigner) (point : Fr) : Fr :=
  s.signing_key.reverse.foldl (fun result c => result * point + c) 0

/-- `FrostSigner::nonce_commitment()`. -/
def FrostSigner.nonce_commitment (s : FrostSigner) : Element :=
  scalarMul s.nonce basepoint

/-- `FrostSigner::keygen_transcript(id, constant_term_commitment,
nonce_commitment)`: the domain-labelled transcript binding the signer
identifier and the two compressed group elements, in order. -/
def FrostSigner.keygen_transcript (id : ℕ)
    (constant_term_commitment nonce_commitment : Element) : Transcript :=
  Transcript.append_message
    (Transcript.append_message
      (Transcript.append_u64 (Transcript.new keygenDomainLabel)
        signerIdentifierLabel id)
      constantTermLabel (vartimeCompress constant_term_commitment))
    nonceCommitmentLabel (vartimeCompress nonce_commitment)

/-- `FrostSigner::keygen_challenge(id, constant_term_commitment,
nonce_commitment)`: builds the keygen transcript, squeezes 32 challenge
bytes under the challenge label, and maps them into the scalar field. -/
def FrostSigner.keygen_challenge (H : Transcript → List ℕ → List ℕ) (id : ℕ)
    (constant_term_commitment nonce_commitment : Element) : Fr × Transcript :=
  let t := FrostSigner.keygen_transcript id constant_term_commitment nonce_commitment
  let res := Transcript.challenge_bytes H t schnorrChallengeLabel
  (fromLeBytesModOrder res.1, res.2)

/-- `FrostSigner::keygen_proof()`: commits to the nonce, derives the
challenge from `(id, commitment[0], nonce_commitment)`, and responds with
`nonce + challenge * signing_key[0]`.  The source indexes `commitment[0]`
and `signing_key[0]` directly (panicking on an empty vector); the model
reads them with `List.getD _ 0`, which agrees with the source whenever the
signer holds at least one coefficient. -/
def FrostSigner.keygen_proof (H : Transcript → List ℕ → List ℕ)
    (s : FrostSigner) : Signature × Transcript :=
  let nonce_commitment := scalarMul s.nonce basepoint
  let res := FrostSigner.keygen_challenge H s.id (s.commitment.getD 0 0) nonce_commitment
  (⟨nonce_commitment, s.nonce + res.1 * s.signing_key.getD 0 0⟩, res.2)

/-- `FrostSigner::keygen_verify_proof(id, constant_term_commitment,
nonce_commitment, sig)`: recomputes the challenge, forms the candidate
commitment `z*G - e*C0`, and compares its compressed encoding with the
compressed encoding of the signature's commitment. -/
def FrostSigner.keygen_verify_proof (H : Transcript → List ℕ → List ℕ) (id : ℕ)
    (constant_term_commitment nonce_commitment : Element) (sig : Signature) : Bool :=
  let challenge :=
    (FrostSigner.keygen_challenge H id constant_term_commitment nonce_commitment).1
  let candidate_commitment :=
    scalarMul sig.challenge_response basepoint -
      scalarMul challenge constant_term_commitment
  decide (vartimeCompress candidate_commitment = vartimeCompress sig.commitment)

/-- `frost::PeerCommitment`: a peer identifier, its public commitment, and
its proof of knowledge. -/
structure PeerCommitment where
  id : ℕ
  commitment : List Element
  sig : Signature

/-- `PeerCommitment::default()`: identifier `0`, empty commitment, default
signature. -/
def PeerCommitment.default : PeerCommitment := ⟨0, [], Signature.default⟩

/-- `frost::FrostCommittee`: committee size, threshold, and the list of
admitted peer commitments. -/
structure FrostCommittee where
  n : ℕ
  t : ℕ
  signers : List PeerCommitment

/-- `FrostCommittee::new(n, t)`: stores the parameters with an empty signer
set; the source performs no validation of `(n, t)` and cannot fail. -/
def FrostCommittee.new (n t : ℕ) : FrostCommittee := ⟨n, t, []⟩

/-- `FrostCommittee::add_signer(peer_commitment)`: unconditionally pushes
the peer commitment onto the signer list; the source performs no check. -/
def FrostCommittee.add_signer (c : FrostCommittee)
    (peer_commitment : PeerCommitment) : FrostCommittee :=
  ⟨c.n, c.t, c.signers ++ [peer_commitment]⟩

/-- `FrostCommittee::threshold()`. -/
def FrostCommittee.threshold (c : FrostCommittee) : ℕ := c.t

/-- `FrostCommittee::committee_size()`. -/
def FrostCommittee.committee_size (c : FrostCommittee) : ℕ := c.n

/-- `ParticipantIndex` (defined identically in src/lib.rs and
src/participant.rs): a newtype over a 64-bit identifier. -/
structure ParticipantIndex where
  val : ℕ

/-- `ParticipantIndex::new(x)`: asserts that `x` is nonzero and wraps it;
the assertion failure (process abort) on `x = 0` is modelled as `none`. -/
def ParticipantIndex.new (x : ℕ) : Option ParticipantIndex :=
  if x = 0 then none else some ⟨x⟩

/-- A concrete instantiation of the transcript squeeze, used to evaluate
the definitions on closed inputs: 32 zero bytes for every state. -/
def hConst : Transcript → List ℕ → List ℕ := fun _ _ => List.replicate 32 0

/-- Decoding inverts the little-endian serialization modulo `256 ^ n`. -/
theorem fromLeBytesNat_leBytes (n : ℕ) :
    ∀ x : ℕ, fromLeBytesNat (leBytes n x) = x % 256 ^ n := by
  induction n with
  | zero => intro x; simp [leBytes, fromLeBytesNat, Nat.mod_one]
  | succ n ih =>
    intro x
    simp only [leBytes, fromLeBytesNat]
    rw [ih, pow_succ, mul_comm (256 ^ n) 256, Nat.mod_mul]

/-- The group order fits in 32 bytes. -/
theorem decafOrder_lt_pow : decafOrder < 256 ^ 32 := by norm_num [decafOrder]

/-- The canonical point encoding is injective. -/
theorem vartimeCompress_inj {a b : Element} (h : vartimeCompress a = vartimeCompress b) :
    a = b := by
  have ha : a.val < 256 ^ 32 := lt_trans (ZMod.val_lt a) decafOrder_lt_pow
  have hb : b.val < 256 ^ 32 := lt_trans (ZMod.val_lt b) decafOrder_lt_pow
  have h2 : a.val % 256 ^ 32 = b.val % 256 ^ 32 := by
    have h3 := congrArg fromLeBytesNat h
    rwa [vartimeCompress, vartimeCompress, fromLeBytesNat_leBytes,
      fromLeBytesNat_leBytes] at h3
  rw [Nat.mod_eq_of_lt ha, Nat.mod_eq_of_lt hb] at h2
  exact ZMod.val_injective decafOrder h2

/-- Horner evaluation over the reversed coefficient list equals the monomial sum. -/
theorem horner_foldl_eq_sum (l : List Fr) (p : Fr) :
    l.reverse.foldl (fun result c => result * p + c) 0 =
      ∑ k ∈ Finset.range l.length, l.getD k 0 * p ^ k := by
  induction l with
  | nil => simp
  | cons a tl ih =>
    rw [List.reverse_cons, List.foldl_append, List.foldl_cons, List.foldl_nil, ih,
      List.length_cons, Finset.sum_range_succ']
    simp only [List.getD_cons_succ, List.getD_cons_zero, pow_zero, mul_one, pow_succ,
      Finset.sum_mul, mul_assoc]

/-- Reading an entry of the committed coefficient list commutes with the
per-coefficient commitment, with the identity element as the out-of-range
default on both sides. -/
theorem getD_map_scalarMul (l : List Fr) (k : ℕ) :
    (l.map (fun x => scalarMul x basepoint)).getD k 0 = scalarMul (l.getD k 0) basepoint := by
  induction l generalizing k with
  | nil => simp [scalarMul, basepoint]
  | cons a tl ih =>
    cases k with
    | zero => simp
    | succ k => simpa using ih k

/-- C1: PoK completeness (round-trip).  For every squeeze function, every
participant identifier and every secret polynomial as held by a
`FrostSigner` built by `FrostSigner::new` with threshold at least one,
`keygen_verify_proof(id, commitment[0], nonce_commitment, sig)` returns
`true` for the signature produced by `keygen_proof`. -/
theorem keygen_proof_roundtrip (H : Transcript → List ℕ → List ℕ) (id n t : ℕ)
    (ht : 1 ≤ t) (sample : ℕ → Fr) :
    FrostSigner.keygen_verify_proof H id
      ((FrostSigner.new id n t sample).commitment.getD 0 0)
      ((FrostSigner.new id n t sample).nonce_commitment)
      ((FrostSigner.new id n t sample).keygen_proof H).1 = true := by
  have hc : (FrostSigner.new id n t sample).commitment.getD 0 0 =
      scalarMul ((FrostSigner.new id n t sample).signing_key.getD 0 0) basepoint := by
    simp only [FrostSigner.new]
    exact getD_map_scalarMul _ 0
  have hid : (FrostSigner.new id n t sample).id = id := rfl
  simp only [FrostSigner.keygen_verify_proof, FrostSigner.keygen_proof,
    FrostSigner.nonce_commitment, hc, hid, scalarMul, basepoint, mul_one]
  rw [add_sub_cancel_right]
  simp

/-- Witness for C1 at a concrete signer: identifier `1`, committee size `3`,
threshold `2`, constant randomness `1`, and the all-zero squeeze. -/
theorem keygen_proof_roundtrip_witness :
    1 ≤ 2 ∧
      FrostSigner.keygen_verify_proof hConst 1
        ((FrostSigner.new 1 3 2 (fun _ => (1 : Fr))).commitment.getD 0 0)
        ((FrostSigner.new 1 3 2 (fun _ => (1 : Fr))).nonce_commitment)
        ((FrostSigner.new 1 3 2 (fun _ => (1 : Fr))).keygen_proof hConst).1 = true :=
  ⟨by decide, keygen_proof_roundtrip hConst 1 3 2 (by decide) (fun _ => (1 : Fr))⟩

/-- C2: Feldman consistency.  For every coefficient list drawn by
`FrostSigner::new` with its commitment `C_i = a_i * G`, and for every scalar
point `j`, `signing_key_evaluate(j) * G` equals the sum over `k` of
`j^k * C[k]`. -/
theorem feldman_consistency (id n t : ℕ) (sample : ℕ → Fr) (j : Fr) :
    scalarMul ((FrostSigner.new id n t sample).signing_key_evaluate j) basepoint =
      ∑ k ∈ Finset.range (FrostSigner.new id n t sample).commitment.length,
        scalarMul (j ^ k) ((FrostSigner.new id n t sample).commitment.getD k 0) := by
  simp only [getD_map_scalarMul ((List.range t).map sample),
    show (FrostSigner.new id n t sample).commitment =
      ((List.range t).map sample).map (fun x => scalarMul x basepoint) from rfl,
    show (FrostSigner.new id n t sample).signing_key_evaluate j =
      ((List.range t).map sample).reverse.foldl (fun result c => result * j + c) 0 from rfl]
  rw [horner_foldl_eq_sum]
  simp only [List.length_map, scalarMul, basepoint, mul_one]
  exact Finset.sum_congr rfl fun k _ => mul_comm _ _

/-- C3: Transcript determinism.  Two `keygen_challenge` computations given
identical `(id, constant_term_commitment, nonce_commitment)` inputs yield
identical challenge scalars, for every squeeze function. -/
theorem keygen_challenge_deterministic (H : Transcript → List ℕ → List ℕ)
    (id1 id2 : ℕ) (c1 c2 R1 R2 : Element)
    (hid : id1 = id2) (hc : c1 = c2) (hR : R1 = R2) :
    (FrostSigner.keygen_challenge H id1 c1 R1).1 =
      (FrostSigner.keygen_challenge H id2 c2 R2).1 := by
  rw [hid, hc, hR]

/-- Witness for C3 at concrete inputs. -/
theorem keygen_challenge_deterministic_witness :
    (FrostSigner.keygen_challenge hConst 7 basepoint basepoint).1 =
      (FrostSigner.keygen_challenge hConst 7 basepoint basepoint).1 :=
  keygen_challenge_deterministic hConst 7 7 basepoint basepoint basepoint basepoint
    rfl rfl rfl

/-- C4: Verification equation.  For every `(id, commitment0, nonce_commitment,
sig)`, `keygen_verify_proof` returns `true` if and only if
`sig.challenge_response * G = sig.commitment + e * commitment0`, where `e`
is the challenge recomputed by `keygen_challenge` from the same inputs. -/
theorem keygen_verify_iff (H : Transcript → List ℕ → List ℕ) (id : ℕ)
    (constant_term_commitment nonce_commitment : Element) (sig : Signature) :
    FrostSigner.keygen_verify_proof H id constant_term_commitment nonce_commitment sig =
        true ↔
      scalarMul sig.challenge_response basepoint =
        sig.commitment +
          scalarMul
            (FrostSigner.keygen_challenge H id constant_term_commitment nonce_commitment).1
            constant_term_commitment := by
  simp only [FrostSigner.keygen_verify_proof, decide_eq_true_eq]
  constructor
  · intro h
    exact sub_eq_iff_eq_add.mp (vartimeCompress_inj h)
  · intro h
    exact congrArg vartimeCompress (sub_eq_iff_eq_add.mpr h)

/-- C5: Committee admission filtering fails in the code:
`FrostCommittee::add_signer` pushes every peer commitment unconditionally,
so the default peer, whose identifier is `0` and whose commitment length
`0` differs from the threshold `2`, is admitted into a fresh committee, and
admitting it twice stores a duplicated identifier. -/
theorem add_signer_admits_invalid_peer :
    ((FrostCommittee.new 3 2).add_signer PeerCommitment.default).signers =
        [PeerCommitment.default] ∧
      (((FrostCommittee.new 3 2).add_signer PeerCommitment.default).add_signer
            PeerCommitment.default).signers =
        [PeerCommitment.default, PeerCommitment.default] :=
  ⟨rfl, rfl⟩

/-- C6: Committee construction validation fails in the code:
`FrostCommittee::new` performs no check on `(n, t)` and cannot fail, so a
committee with threshold `2` above committee size `1`, or with threshold
`0`, is constructed successfully. -/
theorem committee_new_no_validation :
    FrostCommittee.new 1 2 = ⟨1, 2, []⟩ ∧ FrostCommittee.new 3 0 = ⟨3, 0, []⟩ :=
  ⟨rfl, rfl⟩

/-- C7: Polynomial evaluation.  Horner evaluation (`SigningKey::evaluate`
and `FrostSigner::signing_key_evaluate`) returns the sum over `k` of
`a_k * p^k`, and for every non-empty coefficient list evaluation at `0`
returns the constant coefficient. -/
theorem evaluate_spec (coeffs : List Fr) (p : Fr) (s : FrostSigner) :
    (SigningKey.mk coeffs).evaluate p =
        (∑ k ∈ Finset.range coeffs.length, coeffs.getD k 0 * p ^ k) ∧
      s.signing_key_evaluate p =
        (∑ k ∈ Finset.range s.signing_key.length, s.signing_key.getD k 0 * p ^ k) ∧
      (coeffs ≠ [] → (SigningKey.mk coeffs).evaluate 0 = coeffs.getD 0 0) := by
  refine ⟨horner_foldl_eq_sum coeffs p, horner_foldl_eq_sum s.signing_key p, fun h => ?_⟩
  cases coeffs with
  | nil => exact absurd rfl h
  | cons a tl =>
    have h0 := horner_foldl_eq_sum (a :: tl) 0
    rw [SigningKey.evaluate] at *
    rw [h0, List.length_cons, Finset.sum_range_succ']
    simp [pow_succ]

/-- Witness for C7 at the coefficient list `[2, 3]`. -/
theorem evaluate_spec_witness :
    ([(2 : Fr), 3] ≠ []) ∧
      (SigningKey.mk [(2 : Fr), 3]).evaluate 0 = [(2 : Fr), 3].getD 0 0 :=
  ⟨by simp, (evaluate_spec [(2 : Fr), 3] 5 ⟨1, [], 0, []⟩).2.2 (by simp)⟩

/-- C8: Commitment shape and contents.  Every `FrostSigner` built by
`FrostSigner::new` holds exactly `t` coefficients and exactly `t` committed
group elements, and each committed element is the corresponding coefficient
multiplied by the basepoint. -/
theorem new_commitment_shape (id n t : ℕ) (sample : ℕ → Fr) :
    (FrostSigner.new id n t sample).signing_key.length = t ∧
      (FrostSigner.new id n t sample).commitment.length = t ∧
      ∀ i : ℕ, i < t →
        (FrostSigner.new id n t sample).commitment.getD i 0 =
          scalarMul ((FrostSigner.new id n t sample).signing_key.getD i 0) basepoint := by
  refine ⟨by simp [FrostSigner.new], by simp [FrostSigner.new], fun i _ => ?_⟩
  exact getD_map_scalarMul ((List.range t).map sample) i

/-- Witness for C8 at a concrete signer and index `0`. -/
theorem new_commitment_shape_witness :
    0 < 2 ∧
      (FrostSigner.new 1 3 2 (fun _ => (1 : Fr))).commitment.getD 0 0 =
        scalarMul ((FrostSigner.new 1 3 2 (fun _ => (1 : Fr))).signing_key.getD 0 0)
          basepoint :=
  ⟨by decide, (new_commitment_shape 1 3 2 (fun _ => (1 : Fr))).2.2 0 (by decide)⟩

/-- C9: Committee identifier invariant fails in the code: from
`FrostCommittee::new(3, 2)`, two `add_signer` calls with the default peer
reach a state whose stored signer identifiers are `[0, 0]` — an identifier
that is zero and moreover duplicated. -/
theorem committee_id_invariant_violated :
    ((((FrostCommittee.new 3 2).add_signer PeerCommitment.default).add_signer
            PeerCommitment.default).signers.map PeerCommitment.id) = [0, 0] := rfl

/-- C10: `ParticipantIndex::new(x)` aborts on `x = 0` (the assertion failure
is modelled as `none`) and wraps exactly `x` for every nonzero `x`; under
the precondition `x ≠ 0` the failure branch is unreachable. -/
theorem participant_index_new_spec :
    ParticipantIndex.new 0 = none ∧
      ∀ x : ℕ, x ≠ 0 → ParticipantIndex.new x = some ⟨x⟩ := by
  refine ⟨rfl, fun x hx => ?_⟩
  simp [ParticipantIndex.new, hx]

/-- Witness for C10 at `x = 5`. -/
theorem participant_index_new_spec_witness :
    (5 : ℕ) ≠ 0 ∧ ParticipantIndex.new 5 = some ⟨5⟩ :=
  ⟨by decide, participant_index_new_spec.2 5 (by decide)⟩

end Freddo
